import Mathlib

/-!
Verification of the Shopot core (`src/shopot/`): the cipher engine
(`crypto.py`), the document envelope (`document.py`), the pattern registry
(`patterns.py`), key-array handling (`keyfiles.py`) and password-to-key
derivation (`passwords.py`), shallowly embedded in Lean.

Modelling conventions:
* Python `bytes` values are `List Nat` (each entry a byte value; no claim
  here depends on the `< 256` range, since XOR round-trips and equality
  comparisons hold for arbitrary naturals).
* The external hash primitives from Python's `hashlib`/`hmac` standard
  library (SHA-256, SHA-512, HMAC, PBKDF2) are not repository code; they
  enter the model as an abstract `Primitives` bundle.  The only facts the
  embedded code relies on are the documented 64-byte output size of
  SHA-512 / HMAC-SHA-512 (which is what makes the keystream `while` loops
  terminate), so exactly those facts are fields of the bundle.  All
  theorems below are proved for every such bundle.
* `os.urandom` salts and nonces are universally quantified arguments.
* Exceptions are modelled with `Except`; the distinct `raise` sites /
  message families of the source are the constructors of `PyError`.
* Counters are modelled as unlimited naturals: `int.to_bytes(8, "big")`
  would raise `OverflowError` at `2^64`, unreachable for any list the
  model is applied to in the claims.
-/

namespace Shopot

/-- Python `bytes`: a list of byte values. -/
abbrev Bytes := List Nat

/-- The distinct error outcomes raised by the modelled code, one
constructor per raise site / message family (spec §7 taxonomy);
`intValueError` is the uncaught `ValueError` that `int(digit)` raises on
an `isdigit`-true but non-decimal character. -/
inductive PyError where
  | indexError
  | keyError
  | structuralError
  | validationLength
  | validationNonDigit
  | validationPattern
  | intValueError
  | emptyKeyMaterial
  | authenticationFailure
  | unsupportedVersion (version : Int)
  | unknownPattern (digit : Int)
  deriving DecidableEq, Repr

/-- `counter.to_bytes(8, "big")` generalised to width `w`: big-endian bytes. -/
def toBytesBE (w n : Nat) : Bytes :=
  (List.range w).map fun i => n / 256 ^ (w - 1 - i) % 256

/-- The external `hashlib` / `hmac` primitives used by `crypto.py`, as an
abstract bundle.  `pbkdf2HmacSha256 km salt` stands for
`hashlib.pbkdf2_hmac("sha256", km, salt, 200000, dklen=64)`.  The two
length fields record the documented 64-byte digest size of SHA-512 and
HMAC-SHA-512, which the source's keystream loops rely on for progress. -/
structure Primitives where
  sha256 : Bytes → Bytes
  sha512 : Bytes → Bytes
  hmacSha256 : Bytes → Bytes → Bytes
  hmacSha512 : Bytes → Bytes → Bytes
  pbkdf2HmacSha256 : Bytes → Bytes → Bytes
  sha512_length : ∀ m, (sha512 m).length = 64
  hmacSha512_length : ∀ k m, (hmacSha512 k m).length = 64

/-- `EncryptedPayload` (crypto.py, versions 2 and 3). -/
structure EncryptedPayload where
  salt : Bytes
  nonce : Bytes
  ciphertext : Bytes
  mac : Bytes
  deriving DecidableEq, Repr

/-- `LegacyEncryptedPayload` (crypto.py, version 1). -/
structure LegacyEncryptedPayload where
  salt : Bytes
  ciphertext : Bytes
  deriving DecidableEq, Repr

/-- `_derive_keys`: PBKDF2 output split into `(enc_key, mac_key)`. -/
def deriveKeys (P : Primitives) (keyMaterial salt : Bytes) : Bytes × Bytes :=
  let derived := P.pbkdf2HmacSha256 keyMaterial salt
  (derived.take 32, derived.drop 32)

/-- `_material_bytes`: the key material bytes, rejecting the empty string. -/
def materialBytes (keyMaterial : Bytes) : Except PyError Bytes :=
  if keyMaterial = [] then .error .emptyKeyMaterial else .ok keyMaterial

/-- `hmac.compare_digest` (constant time in Python; extensionally equality). -/
def compareDigest (a b : Bytes) : Bool := a == b

/-- The `while` loop of `_keystream_v2`: extend `stream` with
`hmac.new(key, nonce + counter_bytes, sha512)` blocks until `length` bytes
are available. -/
def keystreamV2Loop (P : Primitives) (key nonce : Bytes) (length counter : Nat)
    (stream : Bytes) : Bytes :=
  if stream.length < length then
    keystreamV2Loop P key nonce length (counter + 1)
      (stream ++ P.hmacSha512 key (nonce ++ toBytesBE 8 counter))
  else stream
termination_by length - stream.length
decreasing_by
  have h64 := P.hmacSha512_length key (nonce ++ toBytesBE 8 counter)
  simp only [List.length_append, h64]
  omega

/-- `_keystream_v2`: the loop's output truncated to `length`. -/
def keystreamV2 (P : Primitives) (key nonce : Bytes) (length : Nat) : Bytes :=
  (keystreamV2Loop P key nonce length 0 []).take length

/-- The `while` loop of `_keystream_v3`: each block hashes
`salt + nonce + counter_bytes + rotated`, where `rotated` is the key
material cyclically rotated left by `counter % len(material)`. -/
def keystreamV3Loop (P : Primitives) (key salt nonce material : Bytes)
    (length counter : Nat) (stream : Bytes) : Bytes :=
  if stream.length < length then
    let rotation := counter % material.length
    let rotated := material.drop rotation ++ material.take rotation
    keystreamV3Loop P key salt nonce material length (counter + 1)
      (stream ++ P.hmacSha512 key (salt ++ nonce ++ toBytesBE 8 counter ++ rotated))
  else stream
termination_by length - stream.length
decreasing_by
  have h64 := P.hmacSha512_length key
    (salt ++ nonce ++ toBytesBE 8 counter ++
      (material.drop (counter % material.length) ++ material.take (counter % material.length)))
  simp only [List.length_append, h64]
  omega

/-- `_keystream_v3`: rejects empty material, else the loop truncated. -/
def keystreamV3 (P : Primitives) (key salt nonce material : Bytes)
    (length : Nat) : Except PyError Bytes :=
  if material.length = 0 then .error .emptyKeyMaterial
  else .ok ((keystreamV3Loop P key salt nonce material length 0 []).take length)

/-- `encrypt_v2` with the `os.urandom` salt and nonce as parameters. -/
def encrypt_v2 (P : Primitives) (plaintext keyMaterial salt nonce : Bytes) :
    EncryptedPayload :=
  let keys := deriveKeys P keyMaterial salt
  let keystream := keystreamV2 P keys.1 nonce plaintext.length
  let ciphertext := List.zipWith Nat.xor plaintext keystream
  let mac := P.hmacSha256 keys.2 (nonce ++ ciphertext)
  ⟨salt, nonce, ciphertext, mac⟩

/-- `decrypt_v2`: verify the HMAC tag, then XOR the keystream back. -/
def decrypt_v2 (P : Primitives) (payload : EncryptedPayload)
    (keyMaterial : Bytes) : Except PyError Bytes :=
  let keys := deriveKeys P keyMaterial payload.salt
  let expectedMac := P.hmacSha256 keys.2 (payload.nonce ++ payload.ciphertext)
  if compareDigest expectedMac payload.mac then
    .ok (List.zipWith Nat.xor payload.ciphertext
      (keystreamV2 P keys.1 payload.nonce payload.ciphertext.length))
  else .error .authenticationFailure

/-- `encrypt` (version 3) with the random salt and nonce as parameters. -/
def encrypt (P : Primitives) (plaintext keyMaterial salt nonce : Bytes) :
    Except PyError EncryptedPayload := do
  let material ← materialBytes keyMaterial
  let keys := deriveKeys P keyMaterial salt
  let keystream ← keystreamV3 P keys.1 salt nonce material plaintext.length
  let ciphertext := List.zipWith Nat.xor plaintext keystream
  let materialDigest := P.sha512 material
  let mac := P.hmacSha256 keys.2 (salt ++ nonce ++ ciphertext ++ materialDigest)
  pure ⟨salt, nonce, ciphertext, mac⟩

/-- `decrypt` (version 3): verify the MAC over
`salt + nonce + ciphertext + sha512(material)`, then XOR back. -/
def decrypt (P : Primitives) (payload : EncryptedPayload)
    (keyMaterial : Bytes) : Except PyError Bytes := do
  let material ← materialBytes keyMaterial
  let keys := deriveKeys P keyMaterial payload.salt
  let materialDigest := P.sha512 material
  let expectedMac := P.hmacSha256 keys.2
    (payload.salt ++ payload.nonce ++ payload.ciphertext ++ materialDigest)
  if compareDigest expectedMac payload.mac then
    (keystreamV3 P keys.1 payload.salt payload.nonce material
        payload.ciphertext.length).map
      fun keystream => List.zipWith Nat.xor payload.ciphertext keystream
  else .error .authenticationFailure

/-- The keystream `while` loop shared by `encrypt_legacy`/`decrypt_legacy`:
plain SHA-512 over `seed + counter_bytes`. -/
def legacyKeystreamLoop (P : Primitives) (seed : Bytes) (length counter : Nat)
    (stream : Bytes) : Bytes :=
  if stream.length < length then
    legacyKeystreamLoop P seed length (counter + 1)
      (stream ++ P.sha512 (seed ++ toBytesBE 8 counter))
  else stream
termination_by length - stream.length
decreasing_by
  have h64 := P.sha512_length (seed ++ toBytesBE 8 counter)
  simp only [List.length_append, h64]
  omega

/-- `encrypt_legacy` (version 1, unauthenticated). -/
def encrypt_legacy (P : Primitives) (plaintext keyMaterial salt : Bytes) :
    LegacyEncryptedPayload :=
  let seed := P.sha256 (keyMaterial ++ salt)
  let keystream := legacyKeystreamLoop P seed plaintext.length 0 []
  let ciphertext := List.zipWith Nat.xor plaintext (keystream.take plaintext.length)
  ⟨salt, ciphertext⟩

/-- `decrypt_legacy`: identical keystream derivation; no integrity check. -/
def decrypt_legacy (P : Primitives) (payload : LegacyEncryptedPayload)
    (keyMaterial : Bytes) : Bytes :=
  let seed := P.sha256 (keyMaterial ++ payload.salt)
  let keystream := legacyKeystreamLoop P seed payload.ciphertext.length 0 []
  List.zipWith Nat.xor payload.ciphertext (keystream.take payload.ciphertext.length)

/-- The v2 authentication tag as a function of the authenticated fields
(the expression both `encrypt_v2` and `decrypt_v2` compute). -/
def macV2 (P : Primitives) (keyMaterial salt nonce ciphertext : Bytes) : Bytes :=
  P.hmacSha256 (deriveKeys P keyMaterial salt).2 (nonce ++ ciphertext)

/-- The v3 authentication tag as a function of the authenticated fields. -/
def macV3 (P : Primitives) (keyMaterial salt nonce ciphertext : Bytes) : Bytes :=
  P.hmacSha256 (deriveKeys P keyMaterial salt).2
    (salt ++ nonce ++ ciphertext ++ P.sha512 keyMaterial)

/-- The v3 ciphertext as a function of the inputs (what `encrypt` stores). -/
def ciphertextV3 (P : Primitives) (plaintext keyMaterial salt nonce : Bytes) : Bytes :=
  List.zipWith Nat.xor plaintext
    ((keystreamV3Loop P (deriveKeys P keyMaterial salt).1 salt nonce keyMaterial
        plaintext.length 0 []).take plaintext.length)

/-- Each loop iteration appends a 64-byte block, so the loop's output
reaches the requested length. -/
theorem keystreamV2Loop_length_ge (P : Primitives) (key nonce : Bytes)
    (length counter : Nat) (stream : Bytes) :
    length ≤ (keystreamV2Loop P key nonce length counter stream).length := by
  induction counter, stream using keystreamV2Loop.induct P key nonce length with
  | case1 counter stream hlt ih =>
    rw [keystreamV2Loop, if_pos hlt]
    exact ih
  | case2 counter stream hge =>
    rw [keystreamV2Loop, if_neg hge]
    omega

theorem keystreamV3Loop_length_ge (P : Primitives) (key salt nonce material : Bytes)
    (length counter : Nat) (stream : Bytes) :
    length ≤ (keystreamV3Loop P key salt nonce material length counter stream).length := by
  induction counter, stream using keystreamV3Loop.induct P key salt nonce material length with
  | case1 counter stream hlt rotation rotated ih =>
    rw [keystreamV3Loop, if_pos hlt]
    exact ih
  | case2 counter stream hge =>
    rw [keystreamV3Loop, if_neg hge]
    omega

theorem legacyKeystreamLoop_length_ge (P : Primitives) (seed : Bytes)
    (length counter : Nat) (stream : Bytes) :
    length ≤ (legacyKeystreamLoop P seed length counter stream).length := by
  induction counter, stream using legacyKeystreamLoop.induct P seed length with
  | case1 counter stream hlt ih =>
    rw [legacyKeystreamLoop, if_pos hlt]
    exact ih
  | case2 counter stream hge =>
    rw [legacyKeystreamLoop, if_neg hge]
    omega

/-- `_keystream_v2` returns exactly the requested number of bytes. -/
theorem keystreamV2_length (P : Primitives) (key nonce : Bytes) (length : Nat) :
    (keystreamV2 P key nonce length).length = length := by
  have h := keystreamV2Loop_length_ge P key nonce length 0 []
  simp [keystreamV2, List.length_take]
  omega

/-- XOR-ing the same keystream twice is the identity (up to the zipped
length): the core of every round-trip law. -/
theorem zipWith_xor_cancel (a b : Bytes) :
    List.zipWith Nat.xor (List.zipWith Nat.xor a b) b = a.take b.length := by
  have hx : ∀ m n : Nat, Nat.xor (Nat.xor m n) n = m := fun m n => Nat.xor_cancel_right n m
  induction a generalizing b with
  | nil => simp
  | cons x xs ih =>
    cases b with
    | nil => simp
    | cons y ys => simp [hx, ih]

/-- v1 round-trip. -/
theorem decrypt_encrypt_legacy (P : Primitives) (plaintext keyMaterial salt : Bytes) :
    decrypt_legacy P (encrypt_legacy P plaintext keyMaterial salt) keyMaterial = plaintext := by
  have hge := legacyKeystreamLoop_length_ge P (P.sha256 (keyMaterial ++ salt))
    plaintext.length 0 []
  simp only [encrypt_legacy, decrypt_legacy]
  have hct : (List.zipWith Nat.xor plaintext
      ((legacyKeystreamLoop P (P.sha256 (keyMaterial ++ salt)) plaintext.length 0 []).take
        plaintext.length)).length = plaintext.length := by
    simp [List.length_zipWith, List.length_take]
    omega
  rw [hct, zipWith_xor_cancel]
  simp [List.length_take]
  omega

/-- v2 round-trip. -/
theorem decrypt_encrypt_v2 (P : Primitives) (plaintext keyMaterial salt nonce : Bytes) :
    decrypt_v2 P (encrypt_v2 P plaintext keyMaterial salt nonce) keyMaterial = .ok plaintext := by
  simp only [encrypt_v2, decrypt_v2]
  have hcmp : ∀ x : Bytes, compareDigest x x = true := by simp [compareDigest]
  simp only [hcmp, if_pos]
  have hks := keystreamV2_length P (deriveKeys P keyMaterial salt).1 nonce plaintext.length
  have hct : (List.zipWith Nat.xor plaintext
      (keystreamV2 P (deriveKeys P keyMaterial salt).1 nonce plaintext.length)).length
      = plaintext.length := by
    simp [List.length_zipWith, hks]
  rw [hct, zipWith_xor_cancel, hks, List.take_length]

/-- `Except.ok` fed into a monadic bind reduces to the continuation. -/
theorem exceptOkBind {α β : Type} (a : α) (f : α → Except PyError β) :
    ((Except.ok a : Except PyError α) >>= f) = f a := rfl

/-- `encrypt` (v3) evaluated: with non-empty key material it succeeds and
returns the payload whose fields `ciphertextV3`/`macV3` name. -/
theorem encrypt_eq (P : Primitives) (plaintext keyMaterial salt nonce : Bytes)
    (hkm : keyMaterial ≠ []) :
    encrypt P plaintext keyMaterial salt nonce =
      .ok ⟨salt, nonce, ciphertextV3 P plaintext keyMaterial salt nonce,
        macV3 P keyMaterial salt nonce (ciphertextV3 P plaintext keyMaterial salt nonce)⟩ := by
  have hlen : keyMaterial.length ≠ 0 := by simpa using hkm
  simp [encrypt, materialBytes, hkm, keystreamV3, hlen, ciphertextV3, macV3,
    exceptOkBind, Except.map_ok]

/-- The method form of the previous lemma (`Except.bind` on `ok`). -/
theorem exceptOkBindDot {α β : Type} (a : α) (f : α → Except PyError β) :
    (Except.ok a : Except PyError α).bind f = f a := rfl

/-- `Except.map` over `ok`. -/
theorem exceptMapOk {α β : Type} (f : α → β) (a : α) :
    Except.map f (Except.ok a : Except PyError α) = Except.ok (f a) := rfl

/-- `decrypt` (v3) on a payload carrying the matching tag: the MAC check
passes and the keystream is XORed back. -/
theorem decrypt_eq (P : Primitives) (s n c keyMaterial : Bytes)
    (hkm : keyMaterial ≠ []) :
    decrypt P ⟨s, n, c, macV3 P keyMaterial s n c⟩ keyMaterial =
      .ok (List.zipWith Nat.xor c
        ((keystreamV3Loop P (deriveKeys P keyMaterial s).1 s n keyMaterial
            c.length 0 []).take c.length)) := by
  have hlen : keyMaterial.length ≠ 0 := by simpa using hkm
  have hcmp : ∀ x : Bytes, compareDigest x x = true := by simp [compareDigest]
  simp [decrypt, materialBytes, hkm, macV3, hcmp, keystreamV3, hlen,
    exceptOkBind, exceptMapOk]

/-- v3 round-trip. -/
theorem decrypt_encrypt (P : Primitives) (plaintext keyMaterial salt nonce : Bytes)
    (hkm : keyMaterial ≠ []) :
    (encrypt P plaintext keyMaterial salt nonce).bind
      (fun payload => decrypt P payload keyMaterial) = .ok plaintext := by
  have hge := keystreamV3Loop_length_ge P (deriveKeys P keyMaterial salt).1 salt nonce
    keyMaterial plaintext.length 0 []
  have hct : (ciphertextV3 P plaintext keyMaterial salt nonce).length = plaintext.length := by
    simp [ciphertextV3, List.length_zipWith, List.length_take]
    omega
  rw [encrypt_eq P plaintext keyMaterial salt nonce hkm, exceptOkBindDot,
    decrypt_eq P salt nonce _ keyMaterial hkm, hct]
  simp only [ciphertextV3]
  rw [zipWith_xor_cancel, List.length_take, Nat.min_eq_left hge, List.take_length]

/-- A concrete primitives bundle used to instantiate theorems at concrete
inputs.  `pbkdf2HmacSha256` exposes the salt in the MAC-key half and
`hmacSha256` is plain concatenation, so the v2/v3 MAC pipelines are
injective on fixed-length fields. -/
def samplePrims : Primitives where
  sha256 := fun m => m
  sha512 := fun m => (m ++ List.replicate 64 0).take 64
  hmacSha256 := fun k m => k ++ m
  hmacSha512 := fun k m => ((k ++ m) ++ List.replicate 64 0).take 64
  pbkdf2HmacSha256 := fun _ salt => List.replicate 32 7 ++ salt
  sha512_length := by
    intro m
    simp
  hmacSha512_length := by
    intro k m
    simp
    omega

/-- C1: for every plaintext, key material (non-empty in the v3 case), salt
and nonce, decrypting what the matching generation's encrypt produced with
the same key material returns exactly the plaintext, independently for the
legacy, v2 and v3 schemes. -/
theorem roundtrip_all_generations (P : Primitives)
    (plaintext keyMaterial salt nonce : Bytes) :
    decrypt_legacy P (encrypt_legacy P plaintext keyMaterial salt) keyMaterial = plaintext
    ∧ decrypt_v2 P (encrypt_v2 P plaintext keyMaterial salt nonce) keyMaterial = .ok plaintext
    ∧ (keyMaterial ≠ [] →
        (encrypt P plaintext keyMaterial salt nonce).bind
          (fun payload => decrypt P payload keyMaterial) = .ok plaintext) :=
  ⟨decrypt_encrypt_legacy P plaintext keyMaterial salt,
   decrypt_encrypt_v2 P plaintext keyMaterial salt nonce,
   fun hkm => decrypt_encrypt P plaintext keyMaterial salt nonce hkm⟩

/-- The v3 ciphertext has the plaintext's length. -/
theorem ciphertextV3_length (P : Primitives) (plaintext keyMaterial salt nonce : Bytes) :
    (ciphertextV3 P plaintext keyMaterial salt nonce).length = plaintext.length := by
  have hge := keystreamV3Loop_length_ge P (deriveKeys P keyMaterial salt).1 salt nonce
    keyMaterial plaintext.length 0 []
  simp [ciphertextV3, List.length_zipWith, List.length_take]
  omega

/-- C9: for each generation, the ciphertext field of the produced payload
has exactly the plaintext's length (hence the empty plaintext encrypts to
an empty ciphertext). -/
theorem ciphertext_length_all_generations (P : Primitives)
    (plaintext keyMaterial salt nonce : Bytes) :
    (encrypt_legacy P plaintext keyMaterial salt).ciphertext.length = plaintext.length
    ∧ (encrypt_v2 P plaintext keyMaterial salt nonce).ciphertext.length = plaintext.length
    ∧ (keyMaterial ≠ [] → ∃ payload,
        encrypt P plaintext keyMaterial salt nonce = .ok payload
        ∧ payload.ciphertext.length = plaintext.length) := by
  refine ⟨?_, ?_, fun hkm => ?_⟩
  · have hge := legacyKeystreamLoop_length_ge P (P.sha256 (keyMaterial ++ salt))
      plaintext.length 0 []
    simp [encrypt_legacy, List.length_zipWith, List.length_take]
    omega
  · simp [encrypt_v2, List.length_zipWith,
      keystreamV2_length P (deriveKeys P keyMaterial salt).1 nonce plaintext.length]
  · exact ⟨_, encrypt_eq P plaintext keyMaterial salt nonce hkm,
      ciphertextV3_length P plaintext keyMaterial salt nonce⟩

/-- C9 instantiated at the empty plaintext: the ciphertext is empty. -/
theorem ciphertext_length_all_generations_witness :
    (encrypt_legacy samplePrims [] [107] [1]).ciphertext.length = 0
    ∧ (encrypt_v2 samplePrims [] [107] [1] [2]).ciphertext.length = 0
    ∧ ([107] ≠ ([] : Bytes) → ∃ payload,
        encrypt samplePrims [] [107] [1] [2] = .ok payload
        ∧ payload.ciphertext.length = 0) :=
  ciphertext_length_all_generations samplePrims [] [107] [1] [2]

/-- An adversarial modification of exactly one field of a payload that
keeps the field's byte length — in particular any single-byte alteration
of the salt, nonce, ciphertext or mac. -/
def TamperedField (p t : EncryptedPayload) : Prop :=
  (t.salt ≠ p.salt ∧ t.salt.length = p.salt.length ∧ t.nonce = p.nonce
      ∧ t.ciphertext = p.ciphertext ∧ t.mac = p.mac)
  ∨ (t.nonce ≠ p.nonce ∧ t.nonce.length = p.nonce.length ∧ t.salt = p.salt
      ∧ t.ciphertext = p.ciphertext ∧ t.mac = p.mac)
  ∨ (t.ciphertext ≠ p.ciphertext ∧ t.ciphertext.length = p.ciphertext.length
      ∧ t.salt = p.salt ∧ t.nonce = p.nonce ∧ t.mac = p.mac)
  ∨ (t.mac ≠ p.mac ∧ t.mac.length = p.mac.length ∧ t.salt = p.salt
      ∧ t.nonce = p.nonce ∧ t.ciphertext = p.ciphertext)

/-- Collision-freeness of the v2 MAC pipeline at the field lengths of a
given payload: the model-level stand-in for the second-preimage resistance
of PBKDF2 + HMAC-SHA-256 (without which no tamper-detection property holds
of any MAC construction). -/
def MacInjV2 (P : Primitives) (keyMaterial : Bytes) (p : EncryptedPayload) : Prop :=
  ∀ s n c : Bytes, s.length = p.salt.length → n.length = p.nonce.length →
    c.length = p.ciphertext.length →
    macV2 P keyMaterial s n c = macV2 P keyMaterial p.salt p.nonce p.ciphertext →
    s = p.salt ∧ n = p.nonce ∧ c = p.ciphertext

/-- Collision-freeness of the v3 MAC pipeline. -/
def MacInjV3 (P : Primitives) (keyMaterial : Bytes) (p : EncryptedPayload) : Prop :=
  ∀ s n c : Bytes, s.length = p.salt.length → n.length = p.nonce.length →
    c.length = p.ciphertext.length →
    macV3 P keyMaterial s n c = macV3 P keyMaterial p.salt p.nonce p.ciphertext →
    s = p.salt ∧ n = p.nonce ∧ c = p.ciphertext

/-- `decrypt_v2` rejects exactly when the stored mac is not the recomputed
tag over the presented fields. -/
theorem decrypt_v2_error_of_mac_ne (P : Primitives) (t : EncryptedPayload)
    (keyMaterial : Bytes)
    (h : macV2 P keyMaterial t.salt t.nonce t.ciphertext ≠ t.mac) :
    decrypt_v2 P t keyMaterial = .error .authenticationFailure := by
  have hc : compareDigest
      (P.hmacSha256 (deriveKeys P keyMaterial t.salt).2 (t.nonce ++ t.ciphertext))
      t.mac = false := by
    simp only [compareDigest, beq_eq_false_iff_ne, ne_eq]
    simpa [macV2] using h
  simp [decrypt_v2, hc]

/-- `decrypt` (v3) rejects when the stored mac is not the recomputed tag. -/
theorem decrypt_error_of_mac_ne (P : Primitives) (t : EncryptedPayload)
    (keyMaterial : Bytes) (hkm : keyMaterial ≠ [])
    (h : macV3 P keyMaterial t.salt t.nonce t.ciphertext ≠ t.mac) :
    decrypt P t keyMaterial = .error .authenticationFailure := by
  have hc : compareDigest
      (P.hmacSha256 (deriveKeys P keyMaterial t.salt).2
        (t.salt ++ (t.nonce ++ (t.ciphertext ++ P.sha512 keyMaterial))))
      t.mac = false := by
    simp only [compareDigest, beq_eq_false_iff_ne, ne_eq]
    simpa [macV3, List.append_assoc] using h
  simp [decrypt, materialBytes, hkm, exceptOkBind, hc]

/-- A successful v3 encryption stores exactly the `macV3` tag over its own
salt, nonce and ciphertext fields. -/
theorem encrypt_ok_mac (P : Primitives) (plaintext keyMaterial salt nonce : Bytes)
    (payload : EncryptedPayload) (hkm : keyMaterial ≠ [])
    (h : encrypt P plaintext keyMaterial salt nonce = .ok payload) :
    payload.mac = macV3 P keyMaterial payload.salt payload.nonce payload.ciphertext := by
  rw [encrypt_eq P plaintext keyMaterial salt nonce hkm] at h
  simp only [Except.ok.injEq] at h
  rw [← h]

/-- C2: altering exactly one field of a v2 or v3 payload (keeping its
length, so in particular any single-byte alteration) makes the matching
decrypt fail with the authentication error and yield no plaintext, given
collision-freeness of the MAC pipeline at those field lengths (for a
tampered mac no such assumption is needed and none is used). -/
theorem tampering_fails_authentication (P : Primitives)
    (plaintext keyMaterial salt nonce : Bytes) (t u : EncryptedPayload) :
    (TamperedField (encrypt_v2 P plaintext keyMaterial salt nonce) t →
      MacInjV2 P keyMaterial (encrypt_v2 P plaintext keyMaterial salt nonce) →
      decrypt_v2 P t keyMaterial = .error .authenticationFailure)
    ∧ (∀ payload : EncryptedPayload, keyMaterial ≠ [] →
        encrypt P plaintext keyMaterial salt nonce = .ok payload →
        TamperedField payload u → MacInjV3 P keyMaterial payload →
        decrypt P u keyMaterial = .error .authenticationFailure) := by
  constructor
  · intro htam hinj
    have hmac : (encrypt_v2 P plaintext keyMaterial salt nonce).mac
        = macV2 P keyMaterial (encrypt_v2 P plaintext keyMaterial salt nonce).salt
            (encrypt_v2 P plaintext keyMaterial salt nonce).nonce
            (encrypt_v2 P plaintext keyMaterial salt nonce).ciphertext := rfl
    apply decrypt_v2_error_of_mac_ne
    rcases htam with ⟨hne, hlen, hn, hc, hm⟩ | ⟨hne, hlen, hs, hc, hm⟩
      | ⟨hne, hlen, hs, hn, hm⟩ | ⟨hne, hlen, hs, hn, hc⟩
    · intro heq
      rw [hm, hmac, hn, hc] at heq
      exact hne (hinj t.salt _ _ hlen rfl rfl heq).1
    · intro heq
      rw [hm, hmac, hs, hc] at heq
      exact hne (hinj _ t.nonce _ rfl hlen rfl heq).2.1
    · intro heq
      rw [hm, hmac, hs, hn] at heq
      exact hne (hinj _ _ t.ciphertext rfl rfl hlen heq).2.2
    · intro heq
      rw [hs, hn, hc] at heq
      exact hne (heq.symm.trans hmac.symm)
  · intro payload hkm henc htam hinj
    have hmac := encrypt_ok_mac P plaintext keyMaterial salt nonce payload hkm henc
    apply decrypt_error_of_mac_ne P u keyMaterial hkm
    rcases htam with ⟨hne, hlen, hn, hc, hm⟩ | ⟨hne, hlen, hs, hc, hm⟩
      | ⟨hne, hlen, hs, hn, hm⟩ | ⟨hne, hlen, hs, hn, hc⟩
    · intro heq
      rw [hm, hmac, hn, hc] at heq
      exact hne (hinj u.salt _ _ hlen rfl rfl heq).1
    · intro heq
      rw [hm, hmac, hs, hc] at heq
      exact hne (hinj _ u.nonce _ rfl hlen rfl heq).2.1
    · intro heq
      rw [hm, hmac, hs, hn] at heq
      exact hne (hinj _ _ u.ciphertext rfl rfl hlen heq).2.2
    · intro heq
      rw [hs, hn, hc] at heq
      exact hne (heq.symm.trans hmac.symm)

/-- At `samplePrims` the v2 tag is the concatenation of the MAC key (the
salt) with the authenticated message. -/
theorem macV2_samplePrims (keyMaterial s n c : Bytes) :
    macV2 samplePrims keyMaterial s n c = s ++ (n ++ c) := by
  simp [macV2, samplePrims, deriveKeys]

/-- At `samplePrims` the v3 tag similarly exposes every field. -/
theorem macV3_samplePrims (keyMaterial s n c : Bytes) :
    macV3 samplePrims keyMaterial s n c
      = s ++ (s ++ (n ++ (c ++ samplePrims.sha512 keyMaterial))) := by
  simp [macV3, samplePrims, deriveKeys, List.append_assoc]

/-- The v2 MAC pipeline of `samplePrims` is injective on each payload's
field lengths. -/
theorem macInjV2_samplePrims (keyMaterial : Bytes) (p : EncryptedPayload) :
    MacInjV2 samplePrims keyMaterial p := by
  intro s n c hs hn _ heq
  rw [macV2_samplePrims, macV2_samplePrims] at heq
  obtain ⟨h1, h2⟩ := List.append_inj heq hs
  obtain ⟨h3, h4⟩ := List.append_inj h2 hn
  exact ⟨h1, h3, h4⟩

theorem macInjV3_samplePrims (keyMaterial : Bytes) (p : EncryptedPayload) :
    MacInjV3 samplePrims keyMaterial p := by
  intro s n c hs hn hc heq
  rw [macV3_samplePrims, macV3_samplePrims] at heq
  obtain ⟨h1, h2⟩ := List.append_inj heq hs
  obtain ⟨_, h3⟩ := List.append_inj h2 hs
  obtain ⟨h4, h5⟩ := List.append_inj h3 hn
  obtain ⟨h6, _⟩ := List.append_inj h5 hc
  exact ⟨h1, h4, h6⟩

/-- C2 instantiated: a one-byte salt alteration of concrete v2 and v3
payloads is rejected. -/
theorem tampering_fails_authentication_witness :
    decrypt_v2 samplePrims
        ⟨[9], (encrypt_v2 samplePrims [3] [5] [1] [2]).nonce,
          (encrypt_v2 samplePrims [3] [5] [1] [2]).ciphertext,
          (encrypt_v2 samplePrims [3] [5] [1] [2]).mac⟩ [5]
      = .error .authenticationFailure
    ∧ decrypt samplePrims
        ⟨[9], [2], ciphertextV3 samplePrims [3] [5] [1] [2],
          macV3 samplePrims [5] [1] [2] (ciphertextV3 samplePrims [3] [5] [1] [2])⟩ [5]
      = .error .authenticationFailure := by
  have H := tampering_fails_authentication samplePrims [3] [5] [1] [2]
    ⟨[9], (encrypt_v2 samplePrims [3] [5] [1] [2]).nonce,
      (encrypt_v2 samplePrims [3] [5] [1] [2]).ciphertext,
      (encrypt_v2 samplePrims [3] [5] [1] [2]).mac⟩
    ⟨[9], [2], ciphertextV3 samplePrims [3] [5] [1] [2],
      macV3 samplePrims [5] [1] [2] (ciphertextV3 samplePrims [3] [5] [1] [2])⟩
  refine ⟨H.1 (Or.inl ⟨by decide, by decide, rfl, rfl, rfl⟩) (macInjV2_samplePrims _ _),
    H.2 ⟨[1], [2], ciphertextV3 samplePrims [3] [5] [1] [2],
        macV3 samplePrims [5] [1] [2] (ciphertextV3 samplePrims [3] [5] [1] [2])⟩
      (by decide) (encrypt_eq samplePrims [3] [5] [1] [2] (by decide))
      (Or.inl ⟨by decide, rfl, rfl, rfl, rfl⟩)
      (macInjV3_samplePrims _ _)⟩

/-- C1 instantiated at a concrete plaintext, key material, salt and nonce. -/
theorem roundtrip_all_generations_witness :
    decrypt_legacy samplePrims
        (encrypt_legacy samplePrims [104, 105] [107] [1]) [107] = [104, 105]
    ∧ decrypt_v2 samplePrims
        (encrypt_v2 samplePrims [104, 105] [107] [1] [2]) [107] = .ok [104, 105]
    ∧ ([107] ≠ ([] : Bytes) →
        (encrypt samplePrims [104, 105] [107] [1] [2]).bind
          (fun payload => decrypt samplePrims payload [107]) = .ok [104, 105]) :=
  roundtrip_all_generations samplePrims [104, 105] [107] [1] [2]

/-- The JSON payload object of a document file: each of the four keys is
optionally present (`none` models a missing key).  `b64encode` and
`b64decode` cancel, so the values are modelled as the raw bytes. -/
structure PayloadDict where
  salt : Option Bytes
  nonce : Option Bytes
  ciphertext : Option Bytes
  mac : Option Bytes
  deriving DecidableEq, Repr

/-- `EncryptedPayload.to_dict`. -/
def EncryptedPayload.toDict (p : EncryptedPayload) : PayloadDict :=
  ⟨some p.salt, some p.nonce, some p.ciphertext, some p.mac⟩

/-- `LegacyEncryptedPayload.to_dict`. -/
def LegacyEncryptedPayload.toDict (p : LegacyEncryptedPayload) : PayloadDict :=
  ⟨some p.salt, none, some p.ciphertext, none⟩

/-- `data["key"]`: a required dictionary key, `KeyError` when missing. -/
def requireKey (v : Option Bytes) : Except PyError Bytes :=
  match v with
  | some b => .ok b
  | none => .error .keyError

/-- `EncryptedPayload.from_dict`. -/
def EncryptedPayload.fromDict (d : PayloadDict) : Except PyError EncryptedPayload := do
  let salt ← requireKey d.salt
  let nonce ← requireKey d.nonce
  let ciphertext ← requireKey d.ciphertext
  let mac ← requireKey d.mac
  pure ⟨salt, nonce, ciphertext, mac⟩

/-- `LegacyEncryptedPayload.from_dict`. -/
def LegacyEncryptedPayload.fromDict (d : PayloadDict) :
    Except PyError LegacyEncryptedPayload := do
  let salt ← requireKey d.salt
  let ciphertext ← requireKey d.ciphertext
  pure ⟨salt, ciphertext⟩

/-- The persisted document JSON `{"version": ..., "payload": {...}}`;
`version := none` models a JSON object with no "version" key.  The
document text is modelled as its UTF-8 bytes: the envelope passes it to
the cipher engine unchanged. -/
structure DocFile where
  version : Option Int
  payload : PayloadDict
  deriving DecidableEq, Repr

/-- `ShopotDocument.save`: always encrypts with the current (v3) scheme
and tags the envelope with version 3. -/
def documentSave (P : Primitives) (text keyMaterial salt nonce : Bytes) :
    Except PyError DocFile :=
  (encrypt P text keyMaterial salt nonce).map fun payload =>
    ⟨some 3, payload.toDict⟩

/-- `ShopotDocument.load`: `version = data.get("version", 1)`, then
dispatch on the tag; any other tag is an unsupported version. -/
def documentLoad (P : Primitives) (doc : DocFile) (keyMaterial : Bytes) :
    Except PyError Bytes :=
  let version := doc.version.getD 1
  if version = 1 then
    (LegacyEncryptedPayload.fromDict doc.payload).map fun payload =>
      decrypt_legacy P payload keyMaterial
  else if version = 2 then
    (EncryptedPayload.fromDict doc.payload).bind fun payload =>
      decrypt_v2 P payload keyMaterial
  else if version = 3 then
    (EncryptedPayload.fromDict doc.payload).bind fun payload =>
      decrypt P payload keyMaterial
  else .error (.unsupportedVersion version)

/-- C4: saving always wraps a v3 payload under version tag 3; loading
defaults an absent tag to version 1, dispatches tags 1/2/3 to the legacy,
v2 and v3 decrypt paths respectively, and fails with the
unsupported-version error on every other tag, for every payload content
(so no decryption is attempted there). -/
theorem envelope_version_dispatch (P : Primitives)
    (text keyMaterial salt nonce : Bytes) (pd : PayloadDict) (v : Int) :
    (keyMaterial ≠ [] → ∃ payload,
        encrypt P text keyMaterial salt nonce = .ok payload
        ∧ documentSave P text keyMaterial salt nonce = .ok ⟨some 3, payload.toDict⟩)
    ∧ documentLoad P ⟨none, pd⟩ keyMaterial = documentLoad P ⟨some 1, pd⟩ keyMaterial
    ∧ documentLoad P ⟨some 1, pd⟩ keyMaterial
        = (LegacyEncryptedPayload.fromDict pd).map
            (fun payload => decrypt_legacy P payload keyMaterial)
    ∧ documentLoad P ⟨some 2, pd⟩ keyMaterial
        = (EncryptedPayload.fromDict pd).bind
            (fun payload => decrypt_v2 P payload keyMaterial)
    ∧ documentLoad P ⟨some 3, pd⟩ keyMaterial
        = (EncryptedPayload.fromDict pd).bind
            (fun payload => decrypt P payload keyMaterial)
    ∧ (v ≠ 1 → v ≠ 2 → v ≠ 3 →
        documentLoad P ⟨some v, pd⟩ keyMaterial = .error (.unsupportedVersion v)) := by
  refine ⟨fun hkm => ?_, ?_, ?_, ?_, ?_, fun h1 h2 h3 => ?_⟩
  · exact ⟨_, encrypt_eq P text keyMaterial salt nonce hkm, by
      simp [documentSave, encrypt_eq P text keyMaterial salt nonce hkm, exceptMapOk]⟩
  · rfl
  · rfl
  · simp [documentLoad]
  · simp [documentLoad]
  · simp [documentLoad, h1, h2, h3]

/-- C4 instantiated: version tag 4 with an arbitrary concrete payload is
rejected as unsupported, and a concrete save tags version 3. -/
theorem envelope_version_dispatch_witness :
    (([5] : Bytes) ≠ [] → ∃ payload,
        encrypt samplePrims [3] [5] [1] [2] = .ok payload
        ∧ documentSave samplePrims [3] [5] [1] [2] = .ok ⟨some 3, payload.toDict⟩)
    ∧ ((4 : Int) ≠ 1 → (4 : Int) ≠ 2 → (4 : Int) ≠ 3 →
        documentLoad samplePrims ⟨some 4, ⟨none, none, none, none⟩⟩ [5]
          = .error (.unsupportedVersion 4)) :=
  ⟨(envelope_version_dispatch samplePrims [3] [5] [1] [2] ⟨none, none, none, none⟩ 4).1,
   (envelope_version_dispatch samplePrims [3] [5] [1] [2] ⟨none, none, none, none⟩ 4).2.2.2.2.2⟩

/-- A key-array layer: a grid of cell strings (`patterns.py`'s `Layer`). -/
abbrev Layer := List (List String)

/-- A grid coordinate.  Python yields `int` pairs, so coordinates are
integers (negative values index from the end when used on a list). -/
abbrev Coordinate := Int × Int

/-- Python `range(a, b)` over integers. -/
def intRange (a b : Int) : List Int :=
  (List.range (b - a).toNat).map fun (i : Nat) => a + (i : Int)

/-- Python `range(a, b, -1)` over integers: `a` down to `b + 1`. -/
def intRangeDown (a b : Int) : List Int :=
  (List.range (a - b).toNat).map fun (i : Nat) => a - (i : Int)

/-- Python `range(a, b, 2)` over integers. -/
def intRangeStep2 (a b : Int) : List Int :=
  (List.range ((b - a + 1) / 2).toNat).map fun (i : Nat) => a + 2 * (i : Int)

/-- Python list indexing `l[i]`: a negative index counts from the end;
out of range raises `IndexError`. -/
def pyListGet {α : Type} (l : List α) (i : Int) : Except PyError α :=
  let j := if i < 0 then i + l.length else i
  if h : 0 ≤ j ∧ j < l.length then
    .ok (l.get ⟨j.toNat, by omega⟩)
  else .error .indexError

/-- `_all_coordinates`: every cell of the layer in row-major order. -/
def _all_coordinates (size : Nat) : List Coordinate :=
  (intRange 0 size).flatMap fun row => (intRange 0 size).map fun col => (row, col)

/-- Pattern 0, `pattern_fill`. -/
def pattern_fill (size : Nat) : List Coordinate :=
  _all_coordinates size

/-- Pattern 1, `pattern_checkerboard_a`: cells with even `row + col`. -/
def pattern_checkerboard_a (size : Nat) : List Coordinate :=
  (intRange 0 size).flatMap fun row =>
    ((intRange 0 size).filter fun col => (row + col) % 2 == 0).map fun col => (row, col)

/-- Pattern 2, `pattern_checkerboard_b`: cells with odd `row + col`. -/
def pattern_checkerboard_b (size : Nat) : List Coordinate :=
  (intRange 0 size).flatMap fun row =>
    ((intRange 0 size).filter fun col => (row + col) % 2 == 1).map fun col => (row, col)

/-- Pattern 3, `pattern_plus`: the centre row, then the centre column
without its already-yielded centre cell. -/
def pattern_plus (size : Nat) : List Coordinate :=
  let center : Int := (size : Int) / 2
  ((intRange 0 size).map fun col => (center, col))
    ++ ((intRange 0 size).filter fun row => row != center).map fun row => (row, center)

/-- Pattern 4, `pattern_border`. -/
def pattern_border (size : Nat) : List Coordinate :=
  let last : Int := (size : Int) - 1
  ((intRange 0 size).map fun col => ((0 : Int), col))
    ++ ((intRange 1 last).flatMap fun row => [(row, (0 : Int)), (row, last)])
    ++ ((intRange 0 size).map fun col => (last, col))

/-- Pattern 5, `pattern_diagonal`. -/
def pattern_diagonal (size : Nat) : List Coordinate :=
  (intRange 0 size).map fun i => (i, i)

/-- Pattern 6, `pattern_anti_diagonal`. -/
def pattern_anti_diagonal (size : Nat) : List Coordinate :=
  (intRange 0 size).map fun i => (i, (size : Int) - 1 - i)

/-- The `while` loop of `pattern_spiral`, with the four mutable bounds as
arguments.  The two inner `if`s update `bottom` and `left` exactly as the
source does (note the bottom row already uses the decremented `right`,
and the left column the updated `top` and `bottom`). -/
def spiralGo (top bottom left right : Int) : List Coordinate :=
  if h : top ≤ bottom ∧ left ≤ right then
    ((intRange left (right + 1)).map fun col => (top, col))
    ++ ((intRange (top + 1) (bottom + 1)).map fun row => (row, right))
    ++ (if top + 1 ≤ bottom then
          (intRangeDown (right - 1) (left - 1)).map fun col => (bottom, col)
        else [])
    ++ (if left ≤ right - 1 then
          (intRangeDown (if top + 1 ≤ bottom then bottom - 1 else bottom) top).map
            fun row => (row, left)
        else [])
    ++ spiralGo (top + 1) (if top + 1 ≤ bottom then bottom - 1 else bottom)
        (if left ≤ right - 1 then left + 1 else left) (right - 1)
  else []
termination_by (bottom + 1 - top + (right + 1 - left)).toNat
decreasing_by
  obtain ⟨h1, h2⟩ := h
  split <;> split <;> omega

/-- Pattern 7, `pattern_spiral`. -/
def pattern_spiral (size : Nat) : List Coordinate :=
  spiralGo 0 ((size : Int) - 1) 0 ((size : Int) - 1)

/-- Pattern 8, `pattern_vertical_stripes`: every other column. -/
def pattern_vertical_stripes (size : Nat) : List Coordinate :=
  (intRangeStep2 0 size).flatMap fun col => (intRange 0 size).map fun row => (row, col)

/-- Pattern 9, `pattern_horizontal_stripes`: every other row. -/
def pattern_horizontal_stripes (size : Nat) : List Coordinate :=
  (intRangeStep2 0 size).flatMap fun row => (intRange 0 size).map fun col => (row, col)

/-- The registry's `_patterns` list, in registration order (the order the
decorators run in `patterns.py`).  A pattern uses only `len(layer)`, so it
is modelled as a function of the grid size. -/
def registryPatterns : List (Nat → List Coordinate) :=
  [pattern_fill, pattern_checkerboard_a, pattern_checkerboard_b, pattern_plus,
   pattern_border, pattern_diagonal, pattern_anti_diagonal, pattern_spiral,
   pattern_vertical_stripes, pattern_horizontal_stripes]

/-- `PATTERN_COUNT = len(registry._patterns)`. -/
def PATTERN_COUNT : Nat := registryPatterns.length

/-- `PatternRegistry.get`: `self._patterns[digit]`, with only `IndexError`
re-raised as the unknown-pattern error.  Python list indexing wraps
negative indices, which this models faithfully. -/
def registryGet (digit : Int) : Except PyError (Nat → List Coordinate) :=
  match pyListGet registryPatterns digit with
  | .ok f => .ok f
  | .error _ => .error (.unknownPattern digit)

/-- `PatternRegistry.coordinates`. -/
def registryCoordinates (digit : Int) (layer : Layer) :
    Except PyError (List Coordinate) :=
  (registryGet digit).map fun pattern => pattern layer.length

/-- `p` is a cell of the `size × size` grid. -/
def InGrid (size : Nat) (p : Coordinate) : Prop :=
  0 ≤ p.1 ∧ p.1 < size ∧ 0 ≤ p.2 ∧ p.2 < size

instance (size : Nat) (p : Coordinate) : Decidable (InGrid size p) := by
  unfold InGrid
  infer_instance

theorem mem_intRange {a b x : Int} : x ∈ intRange a b ↔ a ≤ x ∧ x < b := by
  simp only [intRange, List.mem_map, List.mem_range]
  constructor
  · rintro ⟨i, hi, rfl⟩
    omega
  · intro h
    exact ⟨(x - a).toNat, by omega, by omega⟩

theorem mem_intRangeDown {a b x : Int} : x ∈ intRangeDown a b ↔ b < x ∧ x ≤ a := by
  simp only [intRangeDown, List.mem_map, List.mem_range]
  constructor
  · rintro ⟨i, hi, rfl⟩
    omega
  · intro h
    exact ⟨(a - x).toNat, by omega, by omega⟩

theorem intRange_nodup (a b : Int) : (intRange a b).Nodup :=
  List.Nodup.map (fun i j h => by omega) (List.nodup_range _)

theorem intRangeDown_nodup (a b : Int) : (intRangeDown a b).Nodup :=
  List.Nodup.map (fun i j h => by omega) (List.nodup_range _)

theorem intRange_length (a b : Int) : (intRange a b).length = (b - a).toNat := by
  simp [intRange]

/-- Membership in a row segment `(t, ·)`. -/
theorem mem_map_pair_row {xs : List Int} {t : Int} {p : Coordinate} :
    p ∈ xs.map (fun col => (t, col)) ↔ p.1 = t ∧ p.2 ∈ xs := by
  obtain ⟨x, y⟩ := p
  simp only [List.mem_map, Prod.mk.injEq]
  constructor
  · rintro ⟨a, ha, rfl, rfl⟩
    exact ⟨rfl, ha⟩
  · rintro ⟨rfl, hy⟩
    exact ⟨y, hy, rfl, rfl⟩

/-- Membership in a column segment `(·, r)`. -/
theorem mem_map_pair_col {xs : List Int} {r : Int} {p : Coordinate} :
    p ∈ xs.map (fun row => (row, r)) ↔ p.2 = r ∧ p.1 ∈ xs := by
  obtain ⟨x, y⟩ := p
  simp only [List.mem_map, Prod.mk.injEq]
  constructor
  · rintro ⟨a, ha, rfl, rfl⟩
    exact ⟨rfl, ha⟩
  · rintro ⟨rfl, hx⟩
    exact ⟨x, hx, rfl, rfl⟩

theorem pair_row_nodup (xs : List Int) (t : Int) (h : xs.Nodup) :
    (xs.map fun col => (t, col)).Nodup :=
  List.Nodup.map (fun i j hij => by simpa using hij) h

theorem pair_col_nodup (xs : List Int) (r : Int) (h : xs.Nodup) :
    (xs.map fun row => (row, r)).Nodup :=
  List.Nodup.map (fun i j hij => by simpa using hij) h

/-- `pattern_fill` membership: exactly the grid. -/
theorem mem_pattern_fill {N : Nat} {p : Coordinate} :
    p ∈ pattern_fill N ↔ InGrid N p := by
  obtain ⟨x, y⟩ := p
  simp only [pattern_fill, _all_coordinates, List.mem_flatMap, mem_map_pair_row,
    mem_intRange, InGrid]
  constructor
  · rintro ⟨r, hr, rfl, hy⟩
    exact ⟨hr.1, hr.2, hy.1, hy.2⟩
  · rintro ⟨h1, h2, h3, h4⟩
    exact ⟨x, ⟨h1, h2⟩, rfl, h3, h4⟩

theorem pattern_fill_nodup (N : Nat) : (pattern_fill N).Nodup := by
  rw [pattern_fill, _all_coordinates, List.nodup_flatMap]
  refine ⟨fun r _ => pair_row_nodup _ _ (intRange_nodup 0 N), ?_⟩
  refine List.Pairwise.imp ?_ (intRange_nodup 0 N)
  intro r s hrs
  intro p hp hq
  rw [mem_map_pair_row] at hp hq
  exact hrs (hp.1.symm.trans hq.1)

theorem pattern_fill_length (N : Nat) : (pattern_fill N).length = N * N := by
  rw [pattern_fill, _all_coordinates, List.length_flatMap]
  have h1 : List.map (List.length ∘ fun row => (intRange 0 N).map fun col => (row, col))
      (intRange 0 N) = List.map (fun _ => N) (intRange 0 N) :=
    List.map_congr_left fun r _ => by simp [intRange_length]
  rw [h1, List.map_const', List.sum_replicate, smul_eq_mul, intRange_length]
  simp

/-- Checkerboard-even membership. -/
theorem mem_pattern_checkerboard_a {N : Nat} {p : Coordinate} :
    p ∈ pattern_checkerboard_a N ↔ InGrid N p ∧ (p.1 + p.2) % 2 = 0 := by
  obtain ⟨x, y⟩ := p
  simp only [pattern_checkerboard_a, List.mem_flatMap, mem_map_pair_row,
    List.mem_filter, mem_intRange, InGrid, beq_iff_eq]
  constructor
  · rintro ⟨r, hr, rfl, ⟨hy, hpar⟩⟩
    exact ⟨⟨hr.1, hr.2, hy.1, hy.2⟩, hpar⟩
  · rintro ⟨⟨h1, h2, h3, h4⟩, hpar⟩
    exact ⟨x, ⟨h1, h2⟩, rfl, ⟨h3, h4⟩, hpar⟩

/-- Checkerboard-odd membership. -/
theorem mem_pattern_checkerboard_b {N : Nat} {p : Coordinate} :
    p ∈ pattern_checkerboard_b N ↔ InGrid N p ∧ (p.1 + p.2) % 2 = 1 := by
  obtain ⟨x, y⟩ := p
  simp only [pattern_checkerboard_b, List.mem_flatMap, mem_map_pair_row,
    List.mem_filter, mem_intRange, InGrid, beq_iff_eq]
  constructor
  · rintro ⟨r, hr, rfl, ⟨hy, hpar⟩⟩
    exact ⟨⟨hr.1, hr.2, hy.1, hy.2⟩, hpar⟩
  · rintro ⟨⟨h1, h2, h3, h4⟩, hpar⟩
    exact ⟨x, ⟨h1, h2⟩, rfl, ⟨h3, h4⟩, hpar⟩

theorem spiralGo_mem_aux : ∀ (n : Nat) (t b l r : Int),
    (b + 1 - t + (r + 1 - l)).toNat ≤ n → ∀ p : Coordinate,
    (p ∈ spiralGo t b l r ↔ t ≤ p.1 ∧ p.1 ≤ b ∧ l ≤ p.2 ∧ p.2 ≤ r) := by
  intro n
  induction n with
  | zero =>
    intro t b l r hm p
    rw [spiralGo, dif_neg (by omega)]
    simp only [List.not_mem_nil, false_iff]
    omega
  | succ n ih =>
    intro t b l r hm p
    by_cases h : t ≤ b ∧ l ≤ r
    · rw [spiralGo, dif_pos h]
      have hrec := ih (t + 1) (if t + 1 ≤ b then b - 1 else b)
        (if l ≤ r - 1 then l + 1 else l) (r - 1)
        (by split <;> split <;> omega) p
      by_cases hb : t + 1 ≤ b <;> by_cases hl : l ≤ r - 1
      · simp only [if_pos hb, if_pos hl] at hrec ⊢
        simp only [List.mem_append, mem_map_pair_row, mem_map_pair_col,
          mem_intRange, mem_intRangeDown]
        rw [hrec]
        omega
      · simp only [if_pos hb, if_neg hl] at hrec ⊢
        simp only [List.mem_append, mem_map_pair_row, mem_map_pair_col,
          mem_intRange, mem_intRangeDown, List.not_mem_nil, or_false, false_or]
        rw [hrec]
        omega
      · simp only [if_neg hb, if_pos hl] at hrec ⊢
        simp only [List.mem_append, mem_map_pair_row, mem_map_pair_col,
          mem_intRange, mem_intRangeDown, List.not_mem_nil, or_false, false_or]
        rw [hrec]
        omega
      · simp only [if_neg hb, if_neg hl] at hrec ⊢
        simp only [List.mem_append, mem_map_pair_row, mem_map_pair_col,
          mem_intRange, mem_intRangeDown, List.not_mem_nil, or_false, false_or]
        rw [hrec]
        omega
    · rw [spiralGo, dif_neg h]
      simp only [List.not_mem_nil, false_iff]
      omega

theorem spiralGo_mem (t b l r : Int) (p : Coordinate) :
    p ∈ spiralGo t b l r ↔ t ≤ p.1 ∧ p.1 ≤ b ∧ l ≤ p.2 ∧ p.2 ≤ r :=
  spiralGo_mem_aux (b + 1 - t + (r + 1 - l)).toNat t b l r le_rfl p

theorem spiralGo_nodup_aux : ∀ (n : Nat) (t b l r : Int),
    (b + 1 - t + (r + 1 - l)).toNat ≤ n → (spiralGo t b l r).Nodup := by
  intro n
  induction n with
  | zero =>
    intro t b l r hm
    rw [spiralGo, dif_neg (by omega)]
    exact List.nodup_nil
  | succ n ih =>
    intro t b l r hm
    by_cases h : t ≤ b ∧ l ≤ r
    · rw [spiralGo, dif_pos h]
      have hrecN := ih (t + 1) (if t + 1 ≤ b then b - 1 else b)
        (if l ≤ r - 1 then l + 1 else l) (r - 1) (by split <;> split <;> omega)
      by_cases hb : t + 1 ≤ b <;> by_cases hl : l ≤ r - 1
      · simp only [if_pos hb, if_pos hl] at hrecN ⊢
        simp only [List.nodup_append, List.disjoint_append_right, List.disjoint_append_left]
        repeat' apply And.intro
        all_goals first
          | exact pair_row_nodup _ _ (intRange_nodup _ _)
          | exact pair_col_nodup _ _ (intRange_nodup _ _)
          | exact pair_row_nodup _ _ (intRangeDown_nodup _ _)
          | exact pair_col_nodup _ _ (intRangeDown_nodup _ _)
          | exact hrecN
          | exact List.nodup_nil
          | (intro p hp1 hp2
             (simp only [List.mem_append, mem_map_pair_row, mem_map_pair_col, mem_intRange,
               mem_intRangeDown, spiralGo_mem, List.not_mem_nil] at hp1 hp2) <;> omega)
      · simp only [if_pos hb, if_neg hl] at hrecN ⊢
        simp only [List.nodup_append, List.disjoint_append_right, List.disjoint_append_left]
        repeat' apply And.intro
        all_goals first
          | exact pair_row_nodup _ _ (intRange_nodup _ _)
          | exact pair_col_nodup _ _ (intRange_nodup _ _)
          | exact pair_row_nodup _ _ (intRangeDown_nodup _ _)
          | exact pair_col_nodup _ _ (intRangeDown_nodup _ _)
          | exact hrecN
          | exact List.nodup_nil
          | (intro p hp1 hp2
             (simp only [List.mem_append, mem_map_pair_row, mem_map_pair_col, mem_intRange,
               mem_intRangeDown, spiralGo_mem, List.not_mem_nil] at hp1 hp2) <;> omega)
      · simp only [if_neg hb, if_pos hl] at hrecN ⊢
        simp only [List.nodup_append, List.disjoint_append_right, List.disjoint_append_left]
        repeat' apply And.intro
        all_goals first
          | exact pair_row_nodup _ _ (intRange_nodup _ _)
          | exact pair_col_nodup _ _ (intRange_nodup _ _)
          | exact pair_row_nodup _ _ (intRangeDown_nodup _ _)
          | exact pair_col_nodup _ _ (intRangeDown_nodup _ _)
          | exact hrecN
          | exact List.nodup_nil
          | (intro p hp1 hp2
             (simp only [List.mem_append, mem_map_pair_row, mem_map_pair_col, mem_intRange,
               mem_intRangeDown, spiralGo_mem, List.not_mem_nil] at hp1 hp2) <;> omega)
      · simp only [if_neg hb, if_neg hl] at hrecN ⊢
        simp only [List.nodup_append, List.disjoint_append_right, List.disjoint_append_left]
        repeat' apply And.intro
        all_goals first
          | exact pair_row_nodup _ _ (intRange_nodup _ _)
          | exact pair_col_nodup _ _ (intRange_nodup _ _)
          | exact pair_row_nodup _ _ (intRangeDown_nodup _ _)
          | exact pair_col_nodup _ _ (intRangeDown_nodup _ _)
          | exact hrecN
          | exact List.nodup_nil
          | (intro p hp1 hp2
             (simp only [List.mem_append, mem_map_pair_row, mem_map_pair_col, mem_intRange,
               mem_intRangeDown, spiralGo_mem, List.not_mem_nil] at hp1 hp2) <;> omega)
    · rw [spiralGo, dif_neg h]
      exact List.nodup_nil

theorem spiralGo_nodup (t b l r : Int) : (spiralGo t b l r).Nodup :=
  spiralGo_nodup_aux (b + 1 - t + (r + 1 - l)).toNat t b l r le_rfl

theorem mem_pattern_spiral {N : Nat} {p : Coordinate} :
    p ∈ pattern_spiral N ↔ InGrid N p := by
  rw [pattern_spiral, spiralGo_mem]
  unfold InGrid
  omega

theorem pattern_spiral_nodup (N : Nat) : (pattern_spiral N).Nodup :=
  spiralGo_nodup _ _ _ _

/-- C5: `fill` yields exactly N-squared distinct coordinates covering the
grid; the two checkerboards are disjoint and together cover the grid;
`spiral` visits every grid coordinate exactly once (no duplicates and full
coverage). -/
theorem pattern_coverage_properties (N : Nat) :
    ((pattern_fill N).Nodup ∧ (pattern_fill N).length = N * N
      ∧ ∀ p : Coordinate, p ∈ pattern_fill N ↔ InGrid N p)
    ∧ ((∀ p : Coordinate,
          ¬(p ∈ pattern_checkerboard_a N ∧ p ∈ pattern_checkerboard_b N))
      ∧ ∀ p : Coordinate,
          (p ∈ pattern_checkerboard_a N ∨ p ∈ pattern_checkerboard_b N) ↔ InGrid N p)
    ∧ ((pattern_spiral N).Nodup
      ∧ ∀ p : Coordinate, p ∈ pattern_spiral N ↔ InGrid N p) := by
  refine ⟨⟨pattern_fill_nodup N, pattern_fill_length N, fun p => mem_pattern_fill⟩,
    ⟨fun p hp => ?_, fun p => ?_⟩,
    ⟨pattern_spiral_nodup N, fun p => mem_pattern_spiral⟩⟩
  · obtain ⟨h1, h2⟩ := hp
    rw [mem_pattern_checkerboard_a] at h1
    rw [mem_pattern_checkerboard_b] at h2
    omega
  · rw [mem_pattern_checkerboard_a, mem_pattern_checkerboard_b]
    constructor
    · rintro (⟨h, _⟩ | ⟨h, _⟩) <;> exact h
    · intro h
      rcases Int.emod_two_eq_zero_or_one (p.1 + p.2) with hp | hp
      · exact Or.inl ⟨h, hp⟩
      · exact Or.inr ⟨h, hp⟩

/-- C5 instantiated on the 3-by-3 grid. -/
theorem pattern_coverage_properties_witness :
    (pattern_spiral 3).Nodup ∧ ((1, 1) ∈ pattern_spiral 3 ↔ InGrid 3 (1, 1)) :=
  ⟨(pattern_coverage_properties 3).2.2.1,
   (pattern_coverage_properties 3).2.2.2 (1, 1)⟩

/-- C8: digits at 10 or above are rejected with the unknown-pattern error,
but a negative digit does not fail closed: Python's negative list indexing
wraps around, so `registry.get(-1)` silently returns
`pattern_horizontal_stripes` (index 9) instead of raising.  The
`except IndexError` branch — whose re-raise message shows the intent of
rejecting every unknown index — never fires for `-10 ≤ digit ≤ -1`. -/
theorem registry_get_negative_index_wraps :
    (∀ d : Int, 10 ≤ d → registryGet d = .error (.unknownPattern d))
    ∧ registryGet (-1) = .ok pattern_horizontal_stripes := by
  constructor
  · intro d hd
    have hlen : (registryPatterns.length : Int) = 10 := rfl
    have hp : pyListGet registryPatterns d
        = (Except.error PyError.indexError : Except PyError (Nat → List Coordinate)) := by
      simp only [pyListGet]
      split_ifs <;> first | rfl | (exfalso; omega)
    simp [registryGet, hp]
  · rfl

/-- C8 instantiated at digit 10. -/
theorem registry_get_negative_index_wraps_witness :
    registryGet 10 = .error (.unknownPattern 10)
    ∧ registryGet (-1) = .ok pattern_horizontal_stripes :=
  ⟨registry_get_negative_index_wraps.1 10 (by omega),
   registry_get_negative_index_wraps.2⟩

/-- A parsed JSON value (`json.loads` output).  Numbers are modelled as
integers: no claim about the key-file layer depends on float values. -/
inductive JValue where
  | null
  | bool (b : Bool)
  | num (n : Int)
  | str (s : String)
  | arr (elements : List JValue)
  | obj (fields : List (String × JValue))

/-- `LAYER_COUNT` (keyfiles.py). -/
def LAYER_COUNT : Nat := 10

/-- `GRID_SIZE` (keyfiles.py). -/
def GRID_SIZE : Nat := 77

/-- `ELEMENT_LENGTH` (keyfiles.py). -/
def ELEMENT_LENGTH : Nat := 2

/-- `KeyArray.load` applied to the parsed JSON value: rejects anything
that is not a list of exactly `LAYER_COUNT` elements, then constructs the
dataclass from the raw data — `cls(data)` performs no further validation,
so the returned layers are the unchecked elements. -/
def keyArrayLoad (data : JValue) : Except PyError (List JValue) :=
  match data with
  | .arr elements =>
      if elements.length = LAYER_COUNT then .ok elements
      else .error .structuralError
  | _ => .error .structuralError

/-- The spec's "list-of-list-of-strings" shape for one layer element. -/
def isListOfListOfStrings (v : JValue) : Bool :=
  match v with
  | .arr rows => rows.all fun row =>
      match row with
      | .arr cells => cells.all fun cell =>
          match cell with
          | .str _ => true
          | _ => false
      | _ => false
  | _ => false

/-- C7 counterexample: a JSON array of ten numbers is accepted by
`KeyArray.load` and becomes the layers of a constructed `KeyArray`, even
though no element has the list-of-list-of-strings shape. -/
theorem keyArrayLoad_accepts_non_string_shape :
    keyArrayLoad (.arr (List.replicate 10 (.num 0)))
      = .ok (List.replicate 10 (.num 0))
    ∧ (List.replicate 10 (JValue.num 0)).all isListOfListOfStrings = false :=
  ⟨rfl, rfl⟩

/-- C7 amended: `KeyArray.load` fails with the structural error exactly
when the parsed value is not a JSON array of exactly 10 elements; the
inner list-of-list-of-strings shape is never validated, and on success
the raw (unvalidated) elements become the layers. -/
theorem keyArrayLoad_spec (v : JValue) (xs : List JValue) :
    (keyArrayLoad v = .ok xs ↔ v = .arr xs ∧ xs.length = 10)
    ∧ ((∀ ys : List JValue, v = .arr ys → ys.length ≠ 10) →
        keyArrayLoad v = .error .structuralError) := by
  constructor
  · constructor
    · intro hok
      cases v
      case arr elements =>
        simp only [keyArrayLoad, LAYER_COUNT] at hok
        by_cases h : elements.length = 10
        · rw [if_pos h] at hok
          cases hok
          exact ⟨rfl, h⟩
        · rw [if_neg h] at hok
          exact Except.noConfusion hok
      all_goals simp [keyArrayLoad] at hok
    · rintro ⟨rfl, hlen⟩
      simp [keyArrayLoad, LAYER_COUNT, hlen]
  · intro hno
    cases v
    case arr elements =>
      simp only [keyArrayLoad, LAYER_COUNT]
      rw [if_neg (hno elements rfl)]
    all_goals rfl

/-- C7's amended theorem instantiated at a concrete well-shaped and a
concrete ill-shaped input. -/
theorem keyArrayLoad_spec_witness :
    keyArrayLoad (.arr (List.replicate 10 JValue.null))
        = .ok (List.replicate 10 JValue.null)
    ∧ keyArrayLoad (.num 3) = .error .structuralError :=
  ⟨(keyArrayLoad_spec (.arr (List.replicate 10 JValue.null))
        (List.replicate 10 JValue.null)).1.mpr ⟨rfl, rfl⟩,
   (keyArrayLoad_spec (.num 3) []).2 (fun ys h => by cases h)⟩


/-- The external character classification behind `password.isdigit()`
and `int(digit)`, abstracted the same way `Primitives` abstracts the hash
functions.  By the Python documentation, `str.isdigit` is true exactly on
the characters of Numeric_Type Decimal or Digit, and `int` on a
one-character string parses exactly the decimal digits (Numeric_Type
Decimal, category Nd), raising `ValueError` on anything else.  The two
recorded facts are the Unicode guarantees the source relies on: every
`int`-parsable character is an `isdigit` character, and a decimal digit's
value is below ten. -/
structure CharPrimitives where
  isdigit : Char → Bool
  intOfChar : Char → Option Nat
  decimal_isdigit : ∀ c v, intOfChar c = some v → isdigit c = true
  decimal_lt_ten : ∀ c v, intOfChar c = some v → v < 10

/-- `password.isdigit()`: at least one character and all of them digits. -/
def pyStrIsDigit (C : CharPrimitives) (s : List Char) : Bool :=
  !s.isEmpty && s.all C.isdigit

/-- `int(digit)` on a one-character string: the decimal value, or an
uncaught `ValueError` for a non-decimal character. -/
def pyInt (C : CharPrimitives) (c : Char) : Except PyError Nat :=
  match C.intOfChar c with
  | some v => .ok v
  | none => .error .intValueError

/-- An ASCII digit, as claim C6 words it. -/
def isAsciiDigit (c : Char) : Bool := ('0' ≤ c) && (c ≤ '9')

/-- The `for digit in password` loop of `validate_password`:
`int(digit)` is evaluated first (and may itself raise, uncaught), then
its value is compared against `PATTERN_COUNT`, raising at the first
offending digit. -/
def validateDigitsLoop (C : CharPrimitives) : List Char → Except PyError Unit
  | [] => .ok ()
  | digit :: rest =>
    match pyInt C digit with
    | .error e => .error e
    | .ok v =>
      if PATTERN_COUNT ≤ v then .error .validationPattern
      else validateDigitsLoop C rest

/-- `validate_password`: length check, `isdigit` check, then the
per-digit loop. -/
def validate_password (C : CharPrimitives) (password : List Char) :
    Except PyError Unit :=
  if password.length ≠ LAYER_COUNT then .error .validationLength
  else if ¬ pyStrIsDigit C password then .error .validationNonDigit
  else validateDigitsLoop C password

/-- The digit loop succeeds exactly when every character is a decimal
digit: the pattern-range branch never fires, a decimal value being below
ten. -/
theorem validateDigitsLoop_ok_iff (C : CharPrimitives) (l : List Char) :
    validateDigitsLoop C l = .ok () ↔ ∀ c ∈ l, (C.intOfChar c).isSome := by
  induction l with
  | nil => simp [validateDigitsLoop]
  | cons d rest ih =>
    simp only [validateDigitsLoop, pyInt]
    cases hd : C.intOfChar d with
    | none =>
      constructor
      · intro h
        exact Except.noConfusion h
      · intro h
        have hds := h d (by simp)
        rw [hd] at hds
        simp at hds
    | some v =>
      dsimp only
      rw [if_neg (by
        have hv := C.decimal_lt_ten d v hd
        have h10 : PATTERN_COUNT = 10 := rfl
        rw [h10]
        omega)]
      rw [ih]
      constructor
      · intro h c hc
        rcases List.mem_cons.1 hc with rfl | hc2
        · rw [hd]
          rfl
        · exact h c hc2
      · intro h c hc
        exact h c (by simp [hc])

/-- With a non-decimal digit present the loop fails with the uncaught
`int` error (never with the pattern error, again since decimal values
are below ten). -/
theorem validateDigitsLoop_error (C : CharPrimitives) (l : List Char)
    (h : ¬ ∀ c ∈ l, (C.intOfChar c).isSome) :
    validateDigitsLoop C l = .error .intValueError := by
  induction l with
  | nil => simp at h
  | cons d rest ih =>
    simp only [validateDigitsLoop, pyInt]
    cases hd : C.intOfChar d with
    | none => rfl
    | some v =>
      dsimp only
      rw [if_neg (by
        have hv := C.decimal_lt_ten d v hd
        have h10 : PATTERN_COUNT = 10 := rfl
        rw [h10]
        omega)]
      apply ih
      intro hall
      apply h
      intro c hc
      rcases List.mem_cons.1 hc with rfl | hc2
      · rw [hd]
        rfl
      · exact hall c hc2

/-- Validation succeeds exactly on ten-character passwords of decimal
digits (the `isdigit` check is then automatic, decimal digits being
`isdigit` characters). -/
theorem validate_password_ok_iff (C : CharPrimitives) (password : List Char) :
    validate_password C password = .ok ()
      ↔ password.length = 10 ∧ ∀ c ∈ password, (C.intOfChar c).isSome := by
  unfold validate_password
  by_cases hlen : password.length ≠ LAYER_COUNT
  · rw [if_pos hlen]
    simp only [LAYER_COUNT] at hlen
    constructor
    · intro h
      exact Except.noConfusion h
    · rintro ⟨h10, _⟩
      exact absurd h10 hlen
  · rw [if_neg hlen]
    simp only [LAYER_COUNT, not_not] at hlen
    by_cases hdig : ¬ pyStrIsDigit C password
    · rw [if_pos hdig]
      constructor
      · intro h
        exact Except.noConfusion h
      · rintro ⟨_, hall⟩
        exfalso
        apply hdig
        simp only [pyStrIsDigit, Bool.and_eq_true, List.all_eq_true]
        constructor
        · cases password
          · simp at hlen
          · simp
        · intro c hc
          obtain ⟨v, hv⟩ := Option.isSome_iff_exists.1 (hall c hc)
          exact C.decimal_isdigit c v hv
    · rw [if_neg hdig]
      rw [validateDigitsLoop_ok_iff]
      simp [hlen]

/-- C6 (amended): for every character bundle, validation accepts exactly
the ten-character passwords whose characters are all decimal digits in
Python's sense (characters `int` parses, values automatically below
ten — so non-ASCII decimal digits are accepted too); a wrong length and
a non-`isdigit` character are rejected with the two distinct validation
errors, while a ten-character password of `isdigit` characters among
which one is not a decimal digit escapes both and `int` raises an
uncaught `ValueError` instead. -/
theorem validate_password_spec (C : CharPrimitives) (password : List Char) :
    (validate_password C password = .ok ()
      ↔ password.length = 10 ∧ ∀ c ∈ password, (C.intOfChar c).isSome)
    ∧ (password.length ≠ 10 →
        validate_password C password = .error .validationLength)
    ∧ (password.length = 10 → ¬ password.all C.isdigit = true →
        validate_password C password = .error .validationNonDigit)
    ∧ (password.length = 10 → password.all C.isdigit = true →
        ¬ (∀ c ∈ password, (C.intOfChar c).isSome) →
        validate_password C password = .error .intValueError) := by
  refine ⟨validate_password_ok_iff C password, fun hlen => ?_, fun hlen hdig => ?_,
    fun hlen hdig hdec => ?_⟩
  · unfold validate_password
    rw [if_pos (by simp [LAYER_COUNT, hlen])]
  · unfold validate_password
    rw [if_neg (by simp [LAYER_COUNT, hlen])]
    rw [if_pos (by simp [pyStrIsDigit, hdig])]
  · unfold validate_password
    rw [if_neg (by simp [LAYER_COUNT, hlen])]
    rw [if_neg (by
      simp only [not_not, pyStrIsDigit, Bool.and_eq_true]
      refine ⟨?_, hdig⟩
      cases password
      · simp at hlen
      · simp)]
    exact validateDigitsLoop_error C password hdec

/-- A concrete character bundle that agrees with Python's `str.isdigit`
and `int` on the characters exercised below: the decimal-digit ranges
ASCII U+0030..U+0039, Arabic-Indic U+0660..U+0669 and Devanagari
U+0966..U+096F carry their standard values, and the superscript two
U+00B2 is an `isdigit` character (Numeric_Type Digit) that `int` does
not parse.  Every other character is classified non-digit — a
restriction of the full Unicode table; the C6 theorems are proved for
every bundle, this instance only instantiates them. -/
def sampleCharPrims : CharPrimitives where
  isdigit := fun c => decide
    ((0x30 ≤ c.toNat ∧ c.toNat ≤ 0x39) ∨ (0x660 ≤ c.toNat ∧ c.toNat ≤ 0x669)
      ∨ (0x966 ≤ c.toNat ∧ c.toNat ≤ 0x96F) ∨ c.toNat = 0xB2)
  intOfChar := fun c =>
    if 0x30 ≤ c.toNat ∧ c.toNat ≤ 0x39 then some (c.toNat - 0x30)
    else if 0x660 ≤ c.toNat ∧ c.toNat ≤ 0x669 then some (c.toNat - 0x660)
    else if 0x966 ≤ c.toNat ∧ c.toNat ≤ 0x96F then some (c.toNat - 0x966)
    else none
  decimal_isdigit := by
    intro c v h
    dsimp only at h ⊢
    simp only [decide_eq_true_eq]
    split_ifs at h with h1 h2 h3
    · omega
    · omega
    · omega
  decimal_lt_ten := by
    intro c v h
    dsimp only at h
    split_ifs at h with h1 h2 h3
    · injection h with hv
      omega
    · injection h with hv
      omega
    · injection h with hv
      omega

/-- Ten Arabic-Indic zeros (U+0660). -/
def arabicZeros : List Char := List.replicate 10 (Char.ofNat 0x660)

/-- C6 counterexample: a password of ten Arabic-Indic digits passes
validation — Python `isdigit` is true on them and `int` parses them —
although none of its characters is an ASCII digit, for which the claim
demands rejection with a validation error. -/
theorem validate_password_accepts_arabic_digits :
    validate_password sampleCharPrims arabicZeros = .ok ()
    ∧ arabicZeros.all isAsciiDigit = false := by
  constructor
  · rfl
  · rfl

/-- C6's amended theorem instantiated: an ASCII-digit password accepted,
a short one rejected with the length error, and ten superscript twos
(all `isdigit`, none decimal) ending in the uncaught `int` error. -/
theorem validate_password_spec_witness :
    validate_password sampleCharPrims ("0123456789".toList) = .ok ()
    ∧ validate_password sampleCharPrims ("123".toList) = .error .validationLength
    ∧ validate_password sampleCharPrims (List.replicate 10 (Char.ofNat 0xB2))
        = .error .intValueError :=
  ⟨(validate_password_spec sampleCharPrims ("0123456789".toList)).1.mpr (by decide),
   (validate_password_spec sampleCharPrims ("123".toList)).2.1 (by decide),
   (validate_password_spec sampleCharPrims (List.replicate 10 (Char.ofNat 0xB2))).2.2.2
     (by decide) (by decide) (by decide)⟩


/-- `KeyArray` (keyfiles.py): the dataclass holding the layers. -/
structure KeyArray where
  layers : List Layer

/-- `KeyArray.layer`: `self.layers[index]`; the callers index with the
nonnegative positions of `enumerate`, and out of range is an IndexError. -/
def KeyArray.layer (ka : KeyArray) (index : Nat) : Except PyError Layer :=
  if h : index < ka.layers.length then .ok (ka.layers.get ⟨index, h⟩)
  else .error .indexError

/-- `_collect_elements`: read `layer[row][col]` for every coordinate the
pattern yields. -/
def _collect_elements (patternIndex : Int) (layer : Layer) :
    Except PyError (List String) := do
  let coords ← registryCoordinates patternIndex layer
  coords.mapM fun rc => do
    let row ← pyListGet layer rc.1
    pyListGet row rc.2

/-- `password_to_key_material`: validate, then for each password position
collect the pattern-selected cells of the matching layer and join all
fragments in password order. -/
def password_to_key_material (C : CharPrimitives) (password : List Char)
    (keyArray : KeyArray) : Except PyError String := do
  validate_password C password
  let fragments ← password.enum.mapM fun ic => do
    let patternIndex ← pyInt C ic.2
    let layer ← keyArray.layer ic.1
    let selectedElements ← _collect_elements (patternIndex : Int) layer
    pure (String.join selectedElements)
  pure (String.join fragments)

/-- Modelled from the spec (§4.3), for the refinement side of claim C3:
"for each (row,col) yielded by pattern(layer), read `layer[row][col]` and
append to this position's fragment", then "concatenate all 10 fragments in
password-digit order".  Stated with total `getD` reads; the claim theorem
equates it with `password_to_key_material` on square arrays, where every
read is in bounds. -/
def specKeyMaterial (C : CharPrimitives) (password : List Char)
    (keyArray : KeyArray) : String :=
  String.join (password.enum.map fun ic =>
    let layer := keyArray.layers.getD ic.1 []
    let coords :=
      (registryPatterns.getD ((C.intOfChar ic.2).getD 0) fun _ => []) layer.length
    String.join (coords.map fun rc =>
      (layer.getD rc.1.toNat []).getD rc.2.toNat ""))

/-- A key array with its full complement of layers, each a square grid
(every row as long as the layer): what the pattern coordinates need for
all reads to be in bounds. -/
def SquareArray (ka : KeyArray) : Prop :=
  ka.layers.length = LAYER_COUNT
    ∧ ∀ layer ∈ ka.layers, ∀ row ∈ layer, row.length = layer.length

/-- The shape `KeyArray.generate` produces: 10 layers of 77 x 77 cells,
each cell a 2-character string. -/
def GeneratedShape (ka : KeyArray) : Prop :=
  ka.layers.length = LAYER_COUNT
    ∧ ∀ layer ∈ ka.layers, layer.length = GRID_SIZE
      ∧ ∀ row ∈ layer, row.length = GRID_SIZE
        ∧ ∀ cell ∈ row, cell.length = ELEMENT_LENGTH

theorem generatedShape_square (ka : KeyArray) (h : GeneratedShape ka) :
    SquareArray ka :=
  ⟨h.1, fun layer hl row hr => by
    rw [((h.2 layer hl).2 row hr).1, (h.2 layer hl).1]⟩

/-- An in-range Python list access evaluates to the `getD` read. -/
theorem pyListGet_ok {α : Type} (l : List α) (i : Int) (d : α)
    (h0 : 0 ≤ i) (h1 : i < l.length) :
    pyListGet l i = .ok (l.getD i.toNat d) := by
  have hni : ¬ i < 0 := by omega
  simp only [pyListGet, hni, if_false]
  rw [dif_pos ⟨h0, h1⟩]
  rw [List.getD_eq_getElem l d (by omega)]
  simp [List.get_eq_getElem]

theorem mem_intRangeStep2 {a b x : Int} (h : x ∈ intRangeStep2 a b) :
    a ≤ x ∧ x < b := by
  simp only [intRangeStep2, List.mem_map, List.mem_range] at h
  obtain ⟨i, hi, rfl⟩ := h
  omega

/-- Every registered pattern yields only coordinates of the grid. -/
theorem registryPatterns_in_grid :
    ∀ f ∈ registryPatterns, ∀ (N : Nat) (p : Coordinate), p ∈ f N → InGrid N p := by
  intro f hf N p hp
  obtain ⟨x, y⟩ := p
  simp only [registryPatterns, List.mem_cons, List.not_mem_nil, or_false] at hf
  unfold InGrid
  rcases hf with rfl | rfl | rfl | rfl | rfl | rfl | rfl | rfl | rfl | rfl
  · exact mem_pattern_fill.1 hp
  · exact (mem_pattern_checkerboard_a.1 hp).1
  · exact (mem_pattern_checkerboard_b.1 hp).1
  · simp only [pattern_plus, List.mem_append, mem_map_pair_row, mem_map_pair_col,
      List.mem_filter, mem_intRange] at hp
    rcases hp with ⟨h1, h2⟩ | ⟨h1, h2, _⟩ <;> omega
  · simp only [pattern_border, List.mem_append, List.mem_flatMap, mem_map_pair_row,
      mem_intRange, List.mem_cons, List.not_mem_nil, or_false, Prod.mk.injEq] at hp
    rcases hp with (⟨h1, h2⟩ | ⟨r, hr, (⟨h1, h2⟩ | ⟨h1, h2⟩)⟩) | ⟨h1, h2⟩ <;> omega
  · simp only [pattern_diagonal, List.mem_map, mem_intRange, Prod.mk.injEq] at hp
    obtain ⟨i, hi, h1, h2⟩ := hp
    omega
  · simp only [pattern_anti_diagonal, List.mem_map, mem_intRange, Prod.mk.injEq] at hp
    obtain ⟨i, hi, h1, h2⟩ := hp
    omega
  · have := mem_pattern_spiral.1 hp
    unfold InGrid at this
    omega
  · simp only [pattern_vertical_stripes, List.mem_flatMap, mem_map_pair_col,
      mem_intRange] at hp
    obtain ⟨c, hc, h2, h1⟩ := hp
    have := mem_intRangeStep2 hc
    omega
  · simp only [pattern_horizontal_stripes, List.mem_flatMap, mem_map_pair_row,
      mem_intRange] at hp
    obtain ⟨r, hr, h1, h2⟩ := hp
    have := mem_intRangeStep2 hr
    omega

/-- `mapM` over `Except` succeeds pointwise. -/
theorem mapM_ok {α β : Type} (f : α → Except PyError β) (g : α → β) :
    ∀ l : List α, (∀ a ∈ l, f a = .ok (g a)) → l.mapM f = .ok (l.map g) := by
  intro l
  induction l with
  | nil => intro _; rfl
  | cons a l ih =>
    intro h
    rw [List.mapM_cons, h a (by simp), exceptOkBind, ih (fun x hx => h x (by simp [hx])),
      exceptOkBind]
    rfl

/-- `_collect_elements` on a square layer with an in-range pattern index
evaluates to the `getD` reads of the spec side. -/
theorem collect_elements_eval (d : Nat) (layer : Layer) (hd : d < 10)
    (hsq : ∀ row ∈ layer, row.length = layer.length) :
    _collect_elements (d : Int) layer
      = .ok (((registryPatterns.getD d fun _ => []) layer.length).map fun rc =>
          (layer.getD rc.1.toNat []).getD rc.2.toNat "") := by
  have hlen : registryPatterns.length = 10 := rfl
  have hreg : registryGet (d : Int) = .ok (registryPatterns.getD d fun _ => []) := by
    rw [registryGet, pyListGet_ok registryPatterns (d : Int) (fun _ => [])
      (by omega) (by rw [hlen]; exact_mod_cast hd)]
    simp
  unfold _collect_elements
  rw [registryCoordinates, hreg]
  rw [exceptMapOk, exceptOkBind]
  apply mapM_ok
  intro rc hrc
  have hmem : (registryPatterns.getD d fun _ => []) ∈ registryPatterns := by
    rw [List.getD_eq_getElem _ _ (by omega)]
    exact List.getElem_mem _
  have hg := registryPatterns_in_grid _ hmem layer.length rc hrc
  obtain ⟨hx0, hx1, hy0, hy1⟩ := hg
  rw [pyListGet_ok layer rc.1 [] hx0 (by exact_mod_cast hx1), exceptOkBind]
  have hrowmem : layer.getD rc.1.toNat [] ∈ layer := by
    rw [List.getD_eq_getElem _ _ (by omega)]
    exact List.getElem_mem _
  have hrowlen : (layer.getD rc.1.toNat []).length = layer.length := hsq _ hrowmem
  rw [pyListGet_ok _ rc.2 "" hy0 (by rw [hrowlen]; exact_mod_cast hy1)]

/-- `password_to_key_material` on a valid password and a square array
evaluates to the spec-side derivation. -/
theorem password_to_key_material_eval (C : CharPrimitives) (password : List Char)
    (ka : KeyArray) (hv : validate_password C password = .ok ())
    (hka : SquareArray ka) :
    password_to_key_material C password ka = .ok (specKeyMaterial C password ka) := by
  obtain ⟨hlen10, hsq⟩ := hka
  obtain ⟨hplen, hall⟩ := (validate_password_ok_iff C password).1 hv
  unfold password_to_key_material
  rw [hv, exceptOkBind]
  have hmap := mapM_ok
    (fun ic : Nat × Char => do
      let patternIndex ← pyInt C ic.2
      let layer ← ka.layer ic.1
      let selectedElements ← _collect_elements (patternIndex : Int) layer
      pure (String.join selectedElements))
    (fun ic : Nat × Char =>
      let layer := ka.layers.getD ic.1 []
      let coords :=
        (registryPatterns.getD ((C.intOfChar ic.2).getD 0) fun _ => []) layer.length
      String.join (coords.map fun rc =>
        (layer.getD rc.1.toNat []).getD rc.2.toNat ""))
    password.enum ?_
  · rw [hmap, exceptOkBind]
    rfl
  · intro ic hic
    rw [List.mem_enum_iff_getElem?] at hic
    have hi : ic.1 < password.length := by
      by_contra hge
      rw [List.getElem?_eq_none (by omega)] at hic
      exact Option.noConfusion hic
    have hc : ic.2 ∈ password := by
      have := List.getElem?_eq_some_iff.1 hic
      obtain ⟨hh, heq⟩ := this
      rw [← heq]
      exact List.getElem_mem _
    obtain ⟨v, hsome⟩ := Option.isSome_iff_exists.1 (hall ic.2 hc)
    have hd10 : v < 10 := C.decimal_lt_ten ic.2 v hsome
    have hil : ic.1 < ka.layers.length := by
      rw [hlen10, LAYER_COUNT]
      omega
    have hlayer : ka.layer ic.1 = .ok (ka.layers.getD ic.1 []) := by
      rw [KeyArray.layer, dif_pos hil, List.getD_eq_getElem _ _ hil]
      simp [List.get_eq_getElem]
    have hlaymem : ka.layers.getD ic.1 [] ∈ ka.layers := by
      rw [List.getD_eq_getElem _ _ hil]
      exact List.getElem_mem _
    dsimp only
    rw [show pyInt C ic.2 = Except.ok v by simp [pyInt, hsome], exceptOkBind,
      hlayer, exceptOkBind,
      collect_elements_eval v _ hd10 (hsq _ hlaymem), exceptOkBind, hsome]
    rfl

/-- C3: on every valid password and square key array the derived key
material is exactly the spec's concatenation of pattern-selected cells,
fragment by fragment in password order; the derivation is a pure function
(two calls on identical inputs are definitionally the same value). -/
theorem derive_matches_spec (C : CharPrimitives) (password : List Char)
    (ka : KeyArray) (hv : validate_password C password = .ok ())
    (hka : SquareArray ka) :
    password_to_key_material C password ka = .ok (specKeyMaterial C password ka)
    ∧ password_to_key_material C password ka = password_to_key_material C password ka :=
  ⟨password_to_key_material_eval C password ka hv hka, rfl⟩

theorem squareArray_replicate (n : Nat) (s : String) :
    SquareArray ⟨List.replicate LAYER_COUNT (List.replicate n (List.replicate n s))⟩ := by
  constructor
  · simp
  · intro layer hl row hr
    rw [List.mem_replicate] at hl
    rw [hl.2] at hr ⊢
    rw [List.mem_replicate] at hr
    simp [hr.2]

/-- A small concrete square key array. -/
def kaSmall : KeyArray :=
  ⟨List.replicate LAYER_COUNT (List.replicate 3 (List.replicate 3 "ab"))⟩

/-- C3 instantiated at a concrete password and key array. -/
theorem derive_matches_spec_witness :
    password_to_key_material sampleCharPrims ("0123456789".toList) kaSmall
        = .ok (specKeyMaterial sampleCharPrims ("0123456789".toList) kaSmall)
    ∧ password_to_key_material sampleCharPrims ("0123456789".toList) kaSmall
        = password_to_key_material sampleCharPrims ("0123456789".toList) kaSmall :=
  derive_matches_spec sampleCharPrims ("0123456789".toList) kaSmall (by rfl)
    (squareArray_replicate 3 "ab")


theorem length_stringJoin (l : List String) :
    (String.join l).length = (l.map String.length).sum := by
  have h : ∀ (s : String) (l : List String),
      (l.foldl (fun r t => r ++ t) s).length = s.length + (l.map String.length).sum := by
    intro s l
    induction l generalizing s with
    | nil => simp
    | cons a l ih =>
      simp only [List.foldl_cons, List.map_cons, List.sum_cons, ih, String.length_append]
      omega
  simp only [String.join, h, List.map, String.length, List.length_nil]
  simp [h]

/-- The length of the spec-side key material over a generated-shape array
depends only on the password: each fragment contributes the cell length
times the pattern's coordinate count at grid size 77. -/
theorem specKeyMaterial_length (C : CharPrimitives) (password : List Char)
    (ka : KeyArray) (hka : GeneratedShape ka)
    (hall : ∀ c ∈ password, (C.intOfChar c).isSome)
    (hplen : password.length = 10) :
    (specKeyMaterial C password ka).length
      = (password.enum.map fun ic =>
          ELEMENT_LENGTH *
            ((registryPatterns.getD ((C.intOfChar ic.2).getD 0)
              fun _ => []) GRID_SIZE).length).sum := by
  obtain ⟨hlen10, hshape⟩ := hka
  unfold specKeyMaterial
  rw [length_stringJoin, List.map_map]
  congr 1
  apply List.map_congr_left
  intro ic hic
  rw [List.mem_enum_iff_getElem?] at hic
  have hi : ic.1 < password.length := by
    by_contra hge
    rw [List.getElem?_eq_none (by omega)] at hic
    exact Option.noConfusion hic
  have hcmem : ic.2 ∈ password := by
    obtain ⟨hh, heq⟩ := List.getElem?_eq_some_iff.1 hic
    rw [← heq]
    exact List.getElem_mem _
  have hd10 : (C.intOfChar ic.2).getD 0 < 10 := by
    obtain ⟨v, hsome⟩ := Option.isSome_iff_exists.1 (hall ic.2 hcmem)
    rw [hsome]
    exact C.decimal_lt_ten ic.2 v hsome
  have hil : ic.1 < ka.layers.length := by
    rw [hlen10, LAYER_COUNT]
    omega
  have hlaymem : ka.layers.getD ic.1 [] ∈ ka.layers := by
    rw [List.getD_eq_getElem _ _ hil]
    exact List.getElem_mem _
  have hlaylen : (ka.layers.getD ic.1 []).length = GRID_SIZE := (hshape _ hlaymem).1
  simp only [Function.comp]
  rw [hlaylen, length_stringJoin, List.map_map]
  have hpatmem : (registryPatterns.getD ((C.intOfChar ic.2).getD 0) fun _ => [])
      ∈ registryPatterns := by
    rw [List.getD_eq_getElem _ _ (by rw [show registryPatterns.length = 10 from rfl]; omega)]
    exact List.getElem_mem _
  have hcells : ∀ rc ∈ (registryPatterns.getD ((C.intOfChar ic.2).getD 0)
      fun _ => []) GRID_SIZE,
      (String.length ∘ fun rc : Coordinate =>
        ((ka.layers.getD ic.1 []).getD rc.1.toNat []).getD rc.2.toNat "") rc
        = ELEMENT_LENGTH := by
    intro rc hrc
    have hg := registryPatterns_in_grid _ hpatmem GRID_SIZE rc hrc
    obtain ⟨hx0, hx1, hy0, hy1⟩ := hg
    have hrowb : rc.1.toNat < (ka.layers.getD ic.1 []).length := by
      rw [hlaylen]
      omega
    have hrowmem : (ka.layers.getD ic.1 []).getD rc.1.toNat [] ∈ ka.layers.getD ic.1 [] := by
      rw [List.getD_eq_getElem _ _ hrowb]
      exact List.getElem_mem _
    have hrowlen : ((ka.layers.getD ic.1 []).getD rc.1.toNat []).length = GRID_SIZE :=
      ((hshape _ hlaymem).2 _ hrowmem).1
    have hcellb : rc.2.toNat < ((ka.layers.getD ic.1 []).getD rc.1.toNat []).length := by
      rw [hrowlen]
      omega
    have hcellmem : ((ka.layers.getD ic.1 []).getD rc.1.toNat []).getD rc.2.toNat ""
        ∈ (ka.layers.getD ic.1 []).getD rc.1.toNat [] := by
      rw [List.getD_eq_getElem _ _ hcellb]
      exact List.getElem_mem _
    exact ((hshape _ hlaymem).2 _ hrowmem).2 _ hcellmem
  rw [List.map_congr_left hcells, List.map_const', List.sum_replicate, smul_eq_mul,
    Nat.mul_comm]

/-- C10: with a fixed valid password, any two key arrays of the generated
shape (10 layers of 77 x 77 two-character cells) derive key material of
equal length — the length is a function of the password alone and carries
no information about the arrays' cell contents. -/
theorem key_material_length_independent (C : CharPrimitives) (password : List Char)
    (ka1 ka2 : KeyArray) (hv : validate_password C password = .ok ())
    (h1 : GeneratedShape ka1) (h2 : GeneratedShape ka2) :
    ∃ s1 s2 : String,
      password_to_key_material C password ka1 = .ok s1
      ∧ password_to_key_material C password ka2 = .ok s2
      ∧ s1.length = s2.length := by
  obtain ⟨hplen, hall⟩ := (validate_password_ok_iff C password).1 hv
  refine ⟨_, _,
    password_to_key_material_eval C password ka1 hv (generatedShape_square _ h1),
    password_to_key_material_eval C password ka2 hv (generatedShape_square _ h2), ?_⟩
  rw [specKeyMaterial_length C password ka1 h1 hall hplen,
    specKeyMaterial_length C password ka2 h2 hall hplen]

theorem generatedShape_replicate (s : String) (hs : s.length = ELEMENT_LENGTH) :
    GeneratedShape
      ⟨List.replicate LAYER_COUNT (List.replicate GRID_SIZE (List.replicate GRID_SIZE s))⟩ := by
  constructor
  · simp
  · intro layer hl
    rw [List.mem_replicate] at hl
    rw [hl.2]
    refine ⟨by simp, ?_⟩
    intro row hr
    rw [List.mem_replicate] at hr
    rw [hr.2]
    refine ⟨by simp, ?_⟩
    intro cell hc
    rw [List.mem_replicate] at hc
    rw [hc.2]
    exact hs

/-- A generated-shape key array whose cells are all `"aa"`. -/
def kaAllA : KeyArray :=
  ⟨List.replicate LAYER_COUNT (List.replicate GRID_SIZE (List.replicate GRID_SIZE "aa"))⟩

/-- A generated-shape key array whose cells are all `"bb"`. -/
def kaAllB : KeyArray :=
  ⟨List.replicate LAYER_COUNT (List.replicate GRID_SIZE (List.replicate GRID_SIZE "bb"))⟩

/-- C10 instantiated at two concrete 77 x 77 arrays with different cell
contents. -/
theorem key_material_length_independent_witness :
    ∃ s1 s2 : String,
      password_to_key_material sampleCharPrims ("0123456789".toList) kaAllA = .ok s1
      ∧ password_to_key_material sampleCharPrims ("0123456789".toList) kaAllB = .ok s2
      ∧ s1.length = s2.length :=
  key_material_length_independent sampleCharPrims ("0123456789".toList) kaAllA kaAllB
    (by rfl) (generatedShape_replicate "aa" rfl) (generatedShape_replicate "bb" rfl)

end Shopot
